import Mathlib

/-
Verification of the `analyze-osint-scraper` pipeline (src/main.py).

The script is embedded shallowly:
* Python strings are lists of characters (`Str`); the Python substring test
  `a in b` is `List` infix containment `<:+:`, `s.lower()` is `lowerStr`,
  `s.strip()` is `stripStr`, `s[:500]` is `List.take 500`.
* The network is a function `Net` from a URL to `some text` (the text that
  BeautifulSoup's `get_text()` extracts from a successfully fetched page) or
  `none` (a `requests.exceptions.RequestException`: network error or a 4xx/5xx
  status raised by `raise_for_status`).
* The Python `for` loops of `scrape_url` and `main`, which append to a result
  list, become structurally recursive functions threading the accumulated
  lists (`keywordLoop`, `iocLoop`, `pageLoop`, `urlLoop`).
* The IOC file is `none` when `os.path.exists` is false, `some none` when
  opening/reading raises, and `some (some fileLines)` when iterating the open
  handle yields `fileLines`.
* `save_results_to_csv` delegates to `pd.DataFrame(results).to_csv(index=False)`;
  the model `save_results_to_csv` returns the list of lines pandas writes.
-/

namespace Scraper

/-- Python strings, modelled as lists of characters. -/
abbrev Str := List Char

/-- Python `s.lower()`. `Char.toLower` lowercases the ASCII letters A–Z, the
alphabet relevant to the keywords and pages modelled here. -/
def lowerStr (s : Str) : Str := s.map Char.toLower

/-- Python `line.strip()`: remove leading and trailing whitespace. -/
def stripStr (s : Str) : Str :=
  ((s.dropWhile Char.isWhitespace).reverse.dropWhile Char.isWhitespace).reverse

/-- One match dictionary as appended by `scrape_url` (src/main.py lines 88-93
and 98-103): keys `url`, `keyword`, `ioc`, `context`, where `keyword` and
`ioc` can be Python `None`. -/
structure MatchRecord where
  url : Str
  keyword : Option Str
  ioc : Option Str
  context : Str
deriving DecidableEq

/-- Network model: `net u = some t` when `requests.get(u, timeout=10)` returns
a success status and BeautifulSoup extracts text `t` from the body;
`net u = none` when the fetch raises `requests.exceptions.RequestException`
(network failure, timeout, or a 4xx/5xx status via `raise_for_status`). -/
abbrev Net := Str → Option Str

/-- read_iocs_from_file (src/main.py lines 27-47). The argument models the IOC
file: `none` = path does not exist (`os.path.exists` is false), `some none` =
the file exists but opening or reading it raises, `some (some fileLines)` =
reading succeeds and iterating the handle yields `fileLines`. The returned
`Bool` records whether `logging.error` was called (the reported, non-fatal
failure paths). -/
def read_iocs_from_file : Option (Option (List Str)) → List Str × Bool
  | none => ([], true)
  | some none => ([], true)
  | some (some fileLines) =>
    (fileLines.filterMap (fun line =>
      if stripStr line ≠ [] then some (stripStr line) else none), false)

/-- Lines 64-71 of src/main.py: the URL actually requested for page
`pageNum` of base URL `url`. Page 1 uses the base URL; a later page appends
`&page=k` when the base URL contains `?`, else `?page=k`. -/
def current_url_for (url : Str) (pageNum : Nat) : Str :=
  if pageNum > 1 then
    if '?' ∈ url then url ++ ("&page=" ++ Nat.repr pageNum).data
    else url ++ ("?page=" ++ Nat.repr pageNum).data
  else url

/-- Lines 85-93 of src/main.py: the keyword loop body. Each keyword is
lowercased; on a case-insensitive containment hit a record with the lowercased
keyword, a `None` ioc and the first 500 characters of the original-case text
is appended to `results`. -/
def keywordLoop (current_url text_content : Str) :
    List Str → List MatchRecord → List MatchRecord
  | [], results => results
  | kw :: rest, results =>
    let keyword := lowerStr kw
    keywordLoop current_url text_content rest
      (if keyword <:+: lowerStr text_content then
        results ++ [⟨current_url, some keyword, none, text_content.take 500⟩]
      else results)

/-- Lines 96-103 of src/main.py: the IOC loop body. Case-sensitive containment;
on a hit a record with the ioc, a `None` keyword and the first 500 characters
of the text is appended to `results`. -/
def iocLoop (current_url text_content : Str) :
    List Str → List MatchRecord → List MatchRecord
  | [], results => results
  | ioc :: rest, results =>
    iocLoop current_url text_content rest
      (if ioc <:+: text_content then
        results ++ [⟨current_url, none, some ioc, text_content.take 500⟩]
      else results)

/-- Lines 64-103 of src/main.py: the `for page_num in range(1, max_pages + 1)`
loop of `scrape_url`. Returns the list of URLs passed to `requests.get`, in
request order, together with the accumulated `results` list. A failed fetch
(`net current_url = none`) hits the `except` branch: the page is skipped with
`continue` and the loop proceeds. The `if keywords:` / `if iocs:` guards of
lines 84 and 95 are the `isEmpty` tests. -/
def pageLoop (net : Net) (url : Str) (keywords iocs : List Str) :
    List Nat → List Str → List MatchRecord → List Str × List MatchRecord
  | [], attempts, results => (attempts, results)
  | pageNum :: rest, attempts, results =>
    let current_url := current_url_for url pageNum
    match net current_url with
    | none => pageLoop net url keywords iocs rest (attempts ++ [current_url]) results
    | some text_content =>
      let results1 := if keywords.isEmpty then results
        else keywordLoop current_url text_content keywords results
      let results2 := if iocs.isEmpty then results1
        else iocLoop current_url text_content iocs results1
      pageLoop net url keywords iocs rest (attempts ++ [current_url]) results2

/-- scrape_url (src/main.py lines 49-107). `range(1, max_pages + 1)` is
`List.range' 1 max_pages`. First component: the URLs requested, in order;
second: the returned `results` list. -/
def scrape_url (net : Net) (url : Str) (keywords iocs : List Str)
    (max_pages : Nat) : List Str × List MatchRecord :=
  pageLoop net url keywords iocs (List.range' 1 max_pages) [] []

/-- Lines 137-139 of src/main.py: the `for url in args.urls` loop of `main`,
extending `all_results` with each target's records. -/
def urlLoop (net : Net) (keywords iocs : List Str) (max_pages : Nat) :
    List Str → List MatchRecord → List MatchRecord
  | [], all_results => all_results
  | url :: rest, all_results =>
    urlLoop net keywords iocs max_pages rest
      (all_results ++ (scrape_url net url keywords iocs max_pages).2)

/-- The ResultSet of a whole run: `main` starts from `all_results = []`. -/
def main_results (net : Net) (urls keywords iocs : List Str)
    (max_pages : Nat) : List MatchRecord :=
  urlLoop net keywords iocs max_pages urls []

/-- CSV rendering of one field by the pandas writer (default QUOTE_MINIMAL):
a value containing a comma, quote or line break is wrapped in double quotes
with inner quotes doubled; otherwise it is written verbatim. -/
def csvField (s : Str) : Str :=
  if s.any (fun c => c = ',' || c = '"' || c = '\n' || c = '\x0d') then
    '"' :: ((s.flatMap fun c => if c = '"' then ['"', '"'] else [c]) ++ ['"'])
  else s

/-- CSV rendering of an optional field: Python `None` becomes an empty cell
(the default `na_rep` of `to_csv` is the empty string). -/
def csvCell : Option Str → Str
  | none => []
  | some s => csvField s

/-- The data row the pandas writer emits for one record, in the column order
`url, keyword, ioc, context` (the insertion order of the dict keys on lines
88-93 and 98-103). -/
def recordRow (r : MatchRecord) : Str :=
  csvField r.url ++ [','] ++ csvCell r.keyword ++ [','] ++ csvCell r.ioc
    ++ [','] ++ csvField r.context

/-- save_results_to_csv (src/main.py lines 109-122), modelled as the list of
lines `pd.DataFrame(results).to_csv(output_file, index=False)` writes. For a
non-empty record list the frame's columns are `url, keyword, ioc, context` and
the first line is that header. For the empty list `pd.DataFrame([])` is a
frame with no columns, whose CSV output is a single empty header line. -/
def save_results_to_csv (results : List MatchRecord) : List Str :=
  if results.isEmpty then [[]]
  else ("url,keyword,ioc,context").data :: results.map recordRow

/-- Specification-side description (spec §4.4): the records the keyword pass
emits for one page, one per keyword list entry whose lowercasing is contained
in the lowercased text, in keyword list order. -/
def keywordRecordsSpec (current_url text_content : Str)
    (keywords : List Str) : List MatchRecord :=
  keywords.filterMap fun kw =>
    if lowerStr kw <:+: lowerStr text_content then
      some ⟨current_url, some (lowerStr kw), none, text_content.take 500⟩
    else none

/-- Specification-side description (spec §4.4): the records the IOC pass emits
for one page, one per IOC list entry contained verbatim in the text, in IOC
list order. -/
def iocRecordsSpec (current_url text_content : Str)
    (iocs : List Str) : List MatchRecord :=
  iocs.filterMap fun ioc =>
    if ioc <:+: text_content then
      some ⟨current_url, none, some ioc, text_content.take 500⟩
    else none

/-- The records page `pageNum` of target `url` contributes to a run: nothing
when its fetch fails, otherwise the keyword records followed by the IOC
records (guarded, as in the code, by the non-emptiness tests of lines 84/95). -/
def pageRecords (net : Net) (url : Str) (keywords iocs : List Str)
    (pageNum : Nat) : List MatchRecord :=
  match net (current_url_for url pageNum) with
  | none => []
  | some text_content =>
    (if keywords.isEmpty then [] else
      keywordRecordsSpec (current_url_for url pageNum) text_content keywords)
    ++ (if iocs.isEmpty then [] else
      iocRecordsSpec (current_url_for url pageNum) text_content iocs)

/-- Specification-side description (spec §4.5): the fetched URL sequence
`base, base?page=2, …, base?page=N` (with `&page=k` when the base already has
a query string). -/
def paginatorUrlsSpec (url : Str) (n : Nat) : List Str :=
  url :: (List.range' 2 (n - 1)).map fun k =>
    url ++ ((if '?' ∈ url then "&page=" else "?page=") ++ Nat.repr k).data

/-! Characterization lemmas: each Python loop, written above as an
accumulator-threading recursion, equals its closed-form description. -/

theorem keywordLoop_eq (current_url text_content : Str) (keywords : List Str)
    (results : List MatchRecord) :
    keywordLoop current_url text_content keywords results
      = results ++ keywordRecordsSpec current_url text_content keywords := by
  induction keywords generalizing results with
  | nil => simp [keywordLoop, keywordRecordsSpec]
  | cons kw rest ih =>
    by_cases h : lowerStr kw <:+: lowerStr text_content
    · simp [keywordLoop, keywordRecordsSpec, h, ih, List.filterMap_cons]
    · simp [keywordLoop, keywordRecordsSpec, h, ih, List.filterMap_cons]

theorem iocLoop_eq (current_url text_content : Str) (iocs : List Str)
    (results : List MatchRecord) :
    iocLoop current_url text_content iocs results
      = results ++ iocRecordsSpec current_url text_content iocs := by
  induction iocs generalizing results with
  | nil => simp [iocLoop, iocRecordsSpec]
  | cons ioc rest ih =>
    by_cases h : ioc <:+: text_content
    · simp [iocLoop, iocRecordsSpec, h, ih, List.filterMap_cons]
    · simp [iocLoop, iocRecordsSpec, h, ih, List.filterMap_cons]

theorem keywordGuardLoop (current_url text_content : Str) (keywords : List Str)
    (results : List MatchRecord) :
    (if keywords.isEmpty then results
      else keywordLoop current_url text_content keywords results)
      = results ++ keywordRecordsSpec current_url text_content keywords := by
  cases keywords with
  | nil => simp [keywordRecordsSpec]
  | cons a l => simp [keywordLoop_eq]

theorem iocGuardLoop (current_url text_content : Str) (iocs : List Str)
    (results : List MatchRecord) :
    (if iocs.isEmpty then results
      else iocLoop current_url text_content iocs results)
      = results ++ iocRecordsSpec current_url text_content iocs := by
  cases iocs with
  | nil => simp [iocRecordsSpec]
  | cons a l => simp [iocLoop_eq]

theorem pageRecords_of_failure {net : Net} {url : Str} {p : Nat}
    (keywords iocs : List Str)
    (hnet : net (current_url_for url p) = none) :
    pageRecords net url keywords iocs p = [] := by
  unfold pageRecords
  rw [hnet]

theorem guard_keywordRecordsSpec (u t : Str) (keywords : List Str) :
    (if keywords.isEmpty then [] else keywordRecordsSpec u t keywords)
      = keywordRecordsSpec u t keywords := by
  cases keywords with
  | nil => simp [keywordRecordsSpec]
  | cons a l => simp

theorem guard_iocRecordsSpec (u t : Str) (iocs : List Str) :
    (if iocs.isEmpty then [] else iocRecordsSpec u t iocs)
      = iocRecordsSpec u t iocs := by
  cases iocs with
  | nil => simp [iocRecordsSpec]
  | cons a l => simp

theorem pageRecords_of_success {net : Net} {url : Str} {p : Nat} {t : Str}
    (keywords iocs : List Str)
    (hnet : net (current_url_for url p) = some t) :
    pageRecords net url keywords iocs p
      = keywordRecordsSpec (current_url_for url p) t keywords
        ++ iocRecordsSpec (current_url_for url p) t iocs := by
  unfold pageRecords
  rw [hnet]
  dsimp only
  rw [guard_keywordRecordsSpec, guard_iocRecordsSpec]

theorem pageLoop_eq (net : Net) (url : Str) (keywords iocs : List Str)
    (pages : List Nat) (attempts : List Str) (results : List MatchRecord) :
    pageLoop net url keywords iocs pages attempts results
      = (attempts ++ pages.map (current_url_for url),
         results ++ pages.flatMap (pageRecords net url keywords iocs)) := by
  induction pages generalizing attempts results with
  | nil => simp [pageLoop]
  | cons p rest ih =>
    simp only [pageLoop, List.map_cons, List.flatMap_cons]
    cases hnet : net (current_url_for url p) with
    | none =>
      dsimp only
      rw [pageRecords_of_failure keywords iocs hnet, ih]
      simp
    | some text_content =>
      dsimp only
      rw [pageRecords_of_success keywords iocs hnet, keywordGuardLoop,
        iocGuardLoop, ih]
      simp [List.append_assoc]

theorem scrape_url_fst (net : Net) (url : Str) (keywords iocs : List Str)
    (max_pages : Nat) :
    (scrape_url net url keywords iocs max_pages).1
      = (List.range' 1 max_pages).map (current_url_for url) := by
  simp [scrape_url, pageLoop_eq]

theorem scrape_url_snd (net : Net) (url : Str) (keywords iocs : List Str)
    (max_pages : Nat) :
    (scrape_url net url keywords iocs max_pages).2
      = (List.range' 1 max_pages).flatMap (pageRecords net url keywords iocs) := by
  simp [scrape_url, pageLoop_eq]

theorem urlLoop_eq (net : Net) (keywords iocs : List Str) (max_pages : Nat)
    (urls : List Str) (acc : List MatchRecord) :
    urlLoop net keywords iocs max_pages urls acc
      = acc ++ urls.flatMap
          (fun u => (scrape_url net u keywords iocs max_pages).2) := by
  induction urls generalizing acc with
  | nil => simp [urlLoop]
  | cons u rest ih => simp [urlLoop, ih]

theorem flatMap_eq_flatMap_filter {α β : Type} [DecidableEq α]
    (f : α → List β) (k : α) (hf : f k = []) (l : List α) :
    l.flatMap f = (l.filter fun p => decide (p ≠ k)).flatMap f := by
  induction l with
  | nil => simp
  | cons a rest ih =>
    by_cases ha : a = k
    · subst ha
      simp [List.filter_cons, hf, ih]
    · simp [List.filter_cons, ha, ih]

/-! Membership facts for the emitted records. -/

theorem mem_keywordRecordsSpec {r : MatchRecord} {u t : Str} {kws : List Str}
    (h : r ∈ keywordRecordsSpec u t kws) :
    r.url = u ∧ r.ioc = none ∧ r.context = t.take 500
      ∧ ∃ kw ∈ kws, r.keyword = some (lowerStr kw)
        ∧ lowerStr kw <:+: lowerStr t := by
  obtain ⟨kw, hmem, hf⟩ := List.mem_filterMap.mp h
  by_cases hc : lowerStr kw <:+: lowerStr t
  · rw [if_pos hc] at hf
    cases Option.some.inj hf
    exact ⟨rfl, rfl, rfl, kw, hmem, rfl, hc⟩
  · rw [if_neg hc] at hf
    exact absurd hf (by simp)

theorem mem_iocRecordsSpec {r : MatchRecord} {u t : Str} {iocs : List Str}
    (h : r ∈ iocRecordsSpec u t iocs) :
    r.url = u ∧ r.keyword = none ∧ r.context = t.take 500
      ∧ ∃ ioc ∈ iocs, r.ioc = some ioc ∧ ioc <:+: t := by
  obtain ⟨ioc, hmem, hf⟩ := List.mem_filterMap.mp h
  by_cases hc : ioc <:+: t
  · rw [if_pos hc] at hf
    cases Option.some.inj hf
    exact ⟨rfl, rfl, rfl, ioc, hmem, rfl, hc⟩
  · rw [if_neg hc] at hf
    exact absurd hf (by simp)

theorem mem_pageRecords {r : MatchRecord} {net : Net} {url : Str}
    {keywords iocs : List Str} {p : Nat}
    (h : r ∈ pageRecords net url keywords iocs p) :
    r.url = current_url_for url p
      ∧ ∃ t, net (current_url_for url p) = some t ∧ r.context = t.take 500 := by
  unfold pageRecords at h
  cases hnet : net (current_url_for url p) with
  | none => rw [hnet] at h; simp at h
  | some t =>
    rw [hnet] at h
    rcases List.mem_append.mp h with h1 | h1
    · have h2 : r ∈ keywordRecordsSpec (current_url_for url p) t keywords := by
        by_cases hk : keywords.isEmpty
        · rw [if_pos hk] at h1; simp at h1
        · rwa [if_neg hk] at h1
      obtain ⟨hu, _, hctx, _⟩ := mem_keywordRecordsSpec h2
      exact ⟨hu, t, rfl, hctx⟩
    · have h2 : r ∈ iocRecordsSpec (current_url_for url p) t iocs := by
        by_cases hi : iocs.isEmpty
        · rw [if_pos hi] at h1; simp at h1
        · rwa [if_neg hi] at h1
      obtain ⟨hu, _, hctx, _⟩ := mem_iocRecordsSpec h2
      exact ⟨hu, t, rfl, hctx⟩

theorem char_toLower_ne_of_isUpper (c : Char) (h : c.isUpper = true) :
    c.toLower ≠ c := by
  simp only [Char.isUpper, Bool.and_eq_true, decide_eq_true_eq] at h
  obtain ⟨h1, h2⟩ := h
  intro heq
  have hv : c.toNat ≥ 65 ∧ c.toNat ≤ 90 := ⟨h1, h2⟩
  have ht : (Char.toLower c).toNat = c.toNat := by rw [heq]
  rw [Char.toLower] at ht
  simp only [hv, and_self, if_true] at ht
  have hvalid : (c.toNat + 32).isValidChar := Or.inl (by omega)
  rw [Char.ofNat, dif_pos hvalid] at ht
  have ht2 : c.toNat + 32 = c.toNat := ht
  omega

theorem map_eq_self_mem {α : Type} {l : List α} {f : α → α}
    (h : l.map f = l) : ∀ x ∈ l, f x = x := by
  induction l with
  | nil => simp
  | cons a rest ih =>
    simp only [List.map_cons, List.cons.injEq] at h
    intro x hx
    rw [List.mem_cons] at hx
    rcases hx with rfl | hx
    · exact h.1
    · exact ih h.2 x hx

theorem lowerStr_ne_of_upper {s : Str} (h : ∃ c ∈ s, c.isUpper = true) :
    lowerStr s ≠ s := by
  obtain ⟨c, hc, hup⟩ := h
  intro heq
  exact char_toLower_ne_of_isUpper c hup (map_eq_self_mem heq c hc)

theorem keyword_filter_count (u t : Str) (kws : List Str) (kw : Str)
    (hc : lowerStr kw <:+: lowerStr t) :
    ((keywordRecordsSpec u t kws).filter
        fun r => decide (r.keyword = some (lowerStr kw))).length
      = (kws.map lowerStr).count (lowerStr kw) := by
  induction kws with
  | nil => simp [keywordRecordsSpec]
  | cons kw' rest ih =>
    by_cases hc' : lowerStr kw' <:+: lowerStr t
    · by_cases he : lowerStr kw' = lowerStr kw
      · simp [keywordRecordsSpec, List.filterMap_cons, hc, hc', List.filter_cons,
          he, List.count_cons]
        exact ih
      · simp [keywordRecordsSpec, List.filterMap_cons, hc, hc', List.filter_cons,
          he, List.count_cons, Ne.symm he]
        exact ih
    · have he : lowerStr kw' ≠ lowerStr kw := fun he => hc' (he ▸ hc)
      simp [keywordRecordsSpec, List.filterMap_cons, hc, hc', List.count_cons,
        Ne.symm he]
      exact ih

/-- C1, counterexample: with the non-empty keyword list `["ab", "ab"]` and the
page text `"xabx"`, which contains the keyword `"ab"`, the Matcher emits two
MatchRecords for that keyword on that page, not exactly one. -/
theorem keyword_duplicate_two_records :
    ((keywordLoop ("u".data) ("xabx".data) [("ab".data), ("ab".data)] []).filter
        fun r => decide (r.keyword = some ("ab".data))).length = 2
    ∧ ¬ ((keywordLoop ("u".data) ("xabx".data) [("ab".data), ("ab".data)] []).filter
        fun r => decide (r.keyword = some ("ab".data))).length = 1 := by
  decide

/-- C1 (amended): for every non-empty keyword list and every page text that
contains a given keyword under case-insensitive comparison, the Matcher emits
exactly one MatchRecord per keyword-list entry that lowercases to that keyword
(hence exactly one for the keyword when it occurs once in the list up to
case; containment, not occurrence count), and every emitted record has the
keyword field set, the ioc field null, and context equal to the first 500
characters of the original-case page text. -/
theorem keyword_match_unique_per_entry (current_url text_content : Str)
    (keywords : List Str) (kw : Str) (_hne : keywords ≠ [])
    (hc : lowerStr kw <:+: lowerStr text_content) :
    ((keywordLoop current_url text_content keywords []).filter
        fun r => decide (r.keyword = some (lowerStr kw))).length
      = (keywords.map lowerStr).count (lowerStr kw)
    ∧ ∀ r ∈ keywordLoop current_url text_content keywords [],
        r.keyword.isSome = true ∧ r.ioc = none
          ∧ r.context = text_content.take 500 := by
  constructor
  · rw [keywordLoop_eq]
    simpa using keyword_filter_count current_url text_content keywords kw hc
  · intro r hr
    rw [keywordLoop_eq] at hr
    simp only [List.nil_append] at hr
    obtain ⟨_, hioc, hctx, kw', _, hkw, _⟩ := mem_keywordRecordsSpec hr
    exact ⟨by simp [hkw], hioc, hctx⟩

/-- C1 witness: the spec's own example, keyword `"malware"` against the page
text `"This site discusses Malware campaigns."`. -/
theorem keyword_match_unique_per_entry_witness :
    ((keywordLoop ("u".data) ("This site discusses Malware campaigns.".data)
        [("malware".data)] []).filter
      fun r => decide (r.keyword = some (lowerStr ("malware".data)))).length
      = ([("malware".data)].map lowerStr).count (lowerStr ("malware".data))
    ∧ ∀ r ∈ keywordLoop ("u".data)
        ("This site discusses Malware campaigns.".data) [("malware".data)] [],
        r.keyword.isSome = true ∧ r.ioc = none
          ∧ r.context = ("This site discusses Malware campaigns.".data).take 500 :=
  keyword_match_unique_per_entry ("u".data)
    ("This site discusses Malware campaigns.".data) [("malware".data)]
    ("malware".data) (by decide) (by decide)

/-- C2: a record is emitted for an IOC exactly when the IOC occurs verbatim
(case-sensitively) in the page text, and every record the IOC pass emits has
the ioc field set and the keyword field null. -/
theorem ioc_match_case_sensitive (current_url text_content : Str)
    (iocs : List Str) (ioc : Str) (hmem : ioc ∈ iocs) :
    ((∃ r ∈ iocLoop current_url text_content iocs [], r.ioc = some ioc)
      ↔ ioc <:+: text_content)
    ∧ ∀ r ∈ iocLoop current_url text_content iocs [],
        r.keyword = none ∧ r.ioc.isSome = true := by
  constructor
  · constructor
    · rintro ⟨r, hr, hioc⟩
      rw [iocLoop_eq] at hr
      simp only [List.nil_append] at hr
      obtain ⟨_, _, _, i, _, hi, hinf⟩ := mem_iocRecordsSpec hr
      rw [hioc] at hi
      cases Option.some.inj hi
      exact hinf
    · intro hinf
      refine ⟨⟨current_url, none, some ioc, text_content.take 500⟩, ?_, rfl⟩
      rw [iocLoop_eq]
      simp only [List.nil_append]
      exact List.mem_filterMap.mpr ⟨ioc, hmem, by rw [if_pos hinf]⟩
  · intro r hr
    rw [iocLoop_eq] at hr
    simp only [List.nil_append] at hr
    obtain ⟨_, hk, _, i, _, hi, _⟩ := mem_iocRecordsSpec hr
    exact ⟨hk, by simp [hi]⟩

/-- C2 witness: the IOC `"ABC123"` does not match the text `"abc123"` (no
record is emitted), the spec's own example of case-sensitivity. -/
theorem ioc_match_case_sensitive_witness :
    ¬ (("ABC123".data) <:+: ("abc123".data))
    ∧ ¬ (∃ r ∈ iocLoop ("u".data) ("abc123".data) [("ABC123".data)] [],
          r.ioc = some ("ABC123".data)) := by
  have h := ioc_match_case_sensitive ("u".data) ("abc123".data)
    [("ABC123".data)] ("ABC123".data) (by decide)
  have hnc : ¬ (("ABC123".data) <:+: ("abc123".data)) := by decide
  exact ⟨hnc, fun hex => hnc (h.1.mp hex)⟩

/-- C9: every record the keyword pass emits stores the lowercased form of some
caller-supplied keyword, and for any keyword containing an uppercase letter
the stored field differs from the original keyword. -/
theorem keyword_field_lowercased (current_url text_content : Str)
    (keywords : List Str) :
    (∀ r ∈ keywordLoop current_url text_content keywords [],
        ∃ kw ∈ keywords, r.keyword = some (lowerStr kw))
    ∧ ∀ kw : Str, (∃ c ∈ kw, c.isUpper = true) →
        some (lowerStr kw) ≠ some kw := by
  constructor
  · intro r hr
    rw [keywordLoop_eq] at hr
    simp only [List.nil_append] at hr
    obtain ⟨_, _, _, kw, hkwmem, hkw, _⟩ := mem_keywordRecordsSpec hr
    exact ⟨kw, hkwmem, hkw⟩
  · intro kw hup heq
    exact lowerStr_ne_of_upper hup (Option.some.inj heq)

/-- C9 witness: the keyword `"Kw"` on the page `"xKwx"` is stored lowercased
as `"kw"`, which differs from the supplied keyword. -/
theorem keyword_field_lowercased_witness :
    (∃ kw ∈ [("Kw".data)],
      (MatchRecord.mk ("u".data) (some ("kw".data)) none ("xKwx".data)).keyword
        = some (lowerStr kw))
    ∧ some (lowerStr ("Kw".data)) ≠ some ("Kw".data) := by
  have h := keyword_field_lowercased ("u".data) ("xKwx".data) [("Kw".data)]
  refine ⟨h.1 _ (by decide), h.2 ("Kw".data) ⟨'K', by decide, by decide⟩⟩

/-- C10: when the keyword list contains the empty string, every successfully
fetched page yields a record with an empty (but set) keyword and null ioc,
because the empty string is contained in every text; and symmetrically for an
empty-string IOC. -/
theorem empty_string_matches (net : Net) (url : Str) (keywords iocs : List Str)
    (p : Nat) (t : Str) (hnet : net (current_url_for url p) = some t) :
    (([] : Str) ∈ keywords →
      ∃ r ∈ pageRecords net url keywords iocs p,
        r.keyword = some [] ∧ r.ioc = none)
    ∧ (([] : Str) ∈ iocs →
      ∃ r ∈ pageRecords net url keywords iocs p,
        r.ioc = some [] ∧ r.keyword = none) := by
  rw [pageRecords_of_success keywords iocs hnet]
  constructor
  · intro hmem
    refine ⟨⟨current_url_for url p, some (lowerStr []), none, t.take 500⟩,
      ?_, rfl, rfl⟩
    apply List.mem_append_left
    exact List.mem_filterMap.mpr
      ⟨[], hmem, by rw [if_pos ⟨[], lowerStr t, by simp [lowerStr]⟩]⟩
  · intro hmem
    refine ⟨⟨current_url_for url p, none, some [], t.take 500⟩, ?_, rfl, rfl⟩
    apply List.mem_append_right
    exact List.mem_filterMap.mpr ⟨[], hmem, by rw [if_pos ⟨[], t, by simp⟩]⟩

/-- C10 witness: with keyword list `[""]` and IOC list `[""]`, page 1 of a
successfully fetched target emits both an empty-keyword and an empty-ioc
record. -/
theorem empty_string_matches_witness :
    (∃ r ∈ pageRecords (fun _ => some ("t".data)) ("u".data)
        [([] : Str)] [([] : Str)] 1, r.keyword = some [] ∧ r.ioc = none)
    ∧ (∃ r ∈ pageRecords (fun _ => some ("t".data)) ("u".data)
        [([] : Str)] [([] : Str)] 1, r.ioc = some [] ∧ r.keyword = none) := by
  have h := empty_string_matches (fun _ => some ("t".data)) ("u".data)
    [([] : Str)] [([] : Str)] 1 ("t".data) rfl
  exact ⟨h.1 (by decide), h.2 (by decide)⟩

/-- C3: for every base URL and page count N ≥ 1, the Paginator requests
exactly N URLs, page 1 being the base URL unmodified and page k > 1 being the
base URL with `&page=k` appended when it contains `?` and `?page=k` appended
otherwise, in strictly increasing page order — regardless of the network's
answers. -/
theorem paginator_exactly_n_urls (net : Net) (url : Str)
    (keywords iocs : List Str) (n : Nat) (hn : 1 ≤ n) :
    (scrape_url net url keywords iocs n).1 = paginatorUrlsSpec url n
    ∧ (scrape_url net url keywords iocs n).1.length = n := by
  have hmain := scrape_url_fst net url keywords iocs n
  obtain ⟨m, rfl⟩ : ∃ m, n = m + 1 := ⟨n - 1, by omega⟩
  constructor
  · rw [hmain, List.range'_succ]
    simp only [List.map_cons, paginatorUrlsSpec, Nat.add_sub_cancel]
    congr 1
    apply List.map_congr_left
    intro k hk
    rw [List.mem_range'_1] at hk
    have hk2 : k > 1 := by omega
    by_cases hq : '?' ∈ url <;> simp [current_url_for, hk2, hq]
  · rw [hmain]
    simp

/-- C3 witness: the spec's example, base URL `http://ex.test?id=1` with
`max_pages = 3`, gives the three fetch attempts `http://ex.test?id=1`,
`http://ex.test?id=1&page=2`, `http://ex.test?id=1&page=3`. -/
theorem paginator_exactly_n_urls_witness :
    ((scrape_url (fun _ => none) ("http://ex.test?id=1".data) [] [] 3).1
        = paginatorUrlsSpec ("http://ex.test?id=1".data) 3
      ∧ (scrape_url (fun _ => none) ("http://ex.test?id=1".data) [] [] 3).1.length = 3)
    ∧ paginatorUrlsSpec ("http://ex.test?id=1".data) 3
        = [("http://ex.test?id=1".data), ("http://ex.test?id=1&page=2".data),
           ("http://ex.test?id=1&page=3".data)] :=
  ⟨paginator_exactly_n_urls (fun _ => none) ("http://ex.test?id=1".data)
      [] [] 3 (by decide),
   by decide⟩

/-- C4: a failed fetch on page k of a target contributes zero records, while
the full set of page URLs is still attempted (so page k+1 is fetched) and the
remaining target URLs are still processed — the run is never aborted by one
failed fetch. -/
theorem fetch_failure_isolated (net : Net) (url : Str) (keywords iocs : List Str)
    (max_pages k : Nat) (rest_urls : List Str) (_hk1 : 1 ≤ k)
    (_hk2 : k ≤ max_pages) (hfail : net (current_url_for url k) = none) :
    pageRecords net url keywords iocs k = []
    ∧ (scrape_url net url keywords iocs max_pages).2
        = ((List.range' 1 max_pages).filter fun p => decide (p ≠ k)).flatMap
            (pageRecords net url keywords iocs)
    ∧ (scrape_url net url keywords iocs max_pages).1
        = (List.range' 1 max_pages).map (current_url_for url)
    ∧ urlLoop net keywords iocs max_pages (url :: rest_urls) []
        = (scrape_url net url keywords iocs max_pages).2
          ++ urlLoop net keywords iocs max_pages rest_urls [] := by
  have h1 : pageRecords net url keywords iocs k = [] :=
    pageRecords_of_failure keywords iocs hfail
  refine ⟨h1, ?_, scrape_url_fst net url keywords iocs max_pages, ?_⟩
  · rw [scrape_url_snd, flatMap_eq_flatMap_filter _ k h1]
  · rw [urlLoop_eq, urlLoop_eq]
    simp

/-- C4 witness: target `a` with two pages where the fetch of `a?page=2`
fails, followed by a second target `b`. -/
theorem fetch_failure_isolated_witness :
    pageRecords (fun u => if u = ("a?page=2".data) then none
        else some ("k".data)) ("a".data) [("k".data)] [] 2 = []
    ∧ (scrape_url (fun u => if u = ("a?page=2".data) then none
          else some ("k".data)) ("a".data) [("k".data)] [] 2).2
        = ((List.range' 1 2).filter fun p => decide (p ≠ 2)).flatMap
            (pageRecords (fun u => if u = ("a?page=2".data) then none
              else some ("k".data)) ("a".data) [("k".data)] [])
    ∧ (scrape_url (fun u => if u = ("a?page=2".data) then none
          else some ("k".data)) ("a".data) [("k".data)] [] 2).1
        = (List.range' 1 2).map (current_url_for ("a".data))
    ∧ urlLoop (fun u => if u = ("a?page=2".data) then none
          else some ("k".data)) [("k".data)] [] 2 [("a".data), ("b".data)] []
        = (scrape_url (fun u => if u = ("a?page=2".data) then none
            else some ("k".data)) ("a".data) [("k".data)] [] 2).2
          ++ urlLoop (fun u => if u = ("a?page=2".data) then none
              else some ("k".data)) [("k".data)] [] 2 [("b".data)] [] :=
  fetch_failure_isolated
    (fun u => if u = ("a?page=2".data) then none else some ("k".data))
    ("a".data) [("k".data)] [] 2 2 [("b".data)] (by decide) (by decide)
    (by decide)

/-- C5: every record of a run carries the URL of a fetch that succeeded
during that run: its `url` was among the attempted URLs and the network
returned a page for it; no record references a failed fetch. -/
theorem records_from_successful_fetches (net : Net)
    (urls keywords iocs : List Str) (max_pages : Nat) (r : MatchRecord)
    (hr : r ∈ main_results net urls keywords iocs max_pages) :
    (net r.url).isSome = true
    ∧ r.url ∈ (urls.flatMap
        fun u => (scrape_url net u keywords iocs max_pages).1).filter
          fun u => (net u).isSome := by
  rw [main_results, urlLoop_eq] at hr
  simp only [List.nil_append] at hr
  obtain ⟨u, hu, hru⟩ := List.mem_flatMap.mp hr
  rw [scrape_url_snd] at hru
  obtain ⟨p, hp, hrp⟩ := List.mem_flatMap.mp hru
  obtain ⟨hurl, t, hnet, _⟩ := mem_pageRecords hrp
  have hsome : (net r.url).isSome = true := by rw [hurl, hnet]; rfl
  refine ⟨hsome, ?_⟩
  rw [List.mem_filter]
  refine ⟨List.mem_flatMap.mpr ⟨u, hu, ?_⟩, hsome⟩
  rw [scrape_url_fst, hurl]
  exact List.mem_map_of_mem _ hp

/-- C5 witness: a one-page run over one target whose fetch succeeds and whose
page matches the keyword `kw`. -/
theorem records_from_successful_fetches_witness :
    ((fun _ => some ("kw".data))
        ((MatchRecord.mk ("u".data) (some ("kw".data)) none ("kw".data)).url)).isSome
      = true
    ∧ (MatchRecord.mk ("u".data) (some ("kw".data)) none ("kw".data)).url
        ∈ ([("u".data)].flatMap
            fun u => (scrape_url (fun _ => some ("kw".data)) u
              [("kw".data)] [] 1).1).filter
          fun u => ((fun _ => some ("kw".data)) u).isSome :=
  records_from_successful_fetches (fun _ => some ("kw".data)) [("u".data)]
    [("kw".data)] [] 1
    (MatchRecord.mk ("u".data) (some ("kw".data)) none ("kw".data)) (by decide)

/-- C6: a readable IOC file yields its non-empty whitespace-trimmed lines in
file order (duplicates retained) with nothing reported; a missing file or a
read failure is reported and degrades to the empty list — the loader never
halts the run. -/
theorem ioc_loader_contract (fileLines : List Str) :
    read_iocs_from_file (some (some fileLines))
      = ((fileLines.map stripStr).filter fun s => decide (s ≠ []), false)
    ∧ read_iocs_from_file none = ([], true)
    ∧ read_iocs_from_file (some none) = ([], true) := by
  refine ⟨?_, rfl, rfl⟩
  simp only [read_iocs_from_file]
  congr 1
  induction fileLines with
  | nil => rfl
  | cons a l ih =>
    by_cases h : stripStr a = []
    · rw [List.filterMap_cons_none (by simp [h]), List.map_cons,
        List.filter_cons_of_neg (by simp [h]), ih]
    · have hsome : (if stripStr a ≠ [] then some (stripStr a) else none)
          = some (stripStr a) := if_pos h
      rw [@List.filterMap_cons_some _ _
          (fun line => if stripStr line ≠ [] then some (stripStr line) else none)
          a l _ hsome, List.map_cons,
        List.filter_cons_of_pos (by simp [h]), ih]

/-- C7, counterexample: the empty ResultSet produces a single empty line (the
CSV of a zero-column data frame), not the header row `url,keyword,ioc,context`
— the output file's first row is not the header. -/
theorem writer_empty_no_header :
    save_results_to_csv [] = [[]]
    ∧ (save_results_to_csv []).head? ≠ some ("url,keyword,ioc,context".data) := by
  decide

/-- C7 (amended): for every non-empty ResultSet the Result Writer's first row
is the header `url,keyword,ioc,context` followed by one row per record, and
absent keyword/ioc fields are written as explicit empty cells; the empty
ResultSet instead yields a file whose only line is empty (no header row). -/
theorem writer_header_nonempty (results : List MatchRecord)
    (h : results ≠ []) :
    save_results_to_csv results
      = ("url,keyword,ioc,context".data) :: results.map recordRow
    ∧ (save_results_to_csv results).head?
        = some ("url,keyword,ioc,context".data)
    ∧ (save_results_to_csv results).length = results.length + 1
    ∧ csvCell none = ([] : Str) := by
  have hne : results.isEmpty = false := by
    cases results with
    | nil => exact absurd rfl h
    | cons a l => rfl
  have hmain : save_results_to_csv results
      = ("url,keyword,ioc,context".data) :: results.map recordRow := by
    rw [save_results_to_csv, if_neg (by simp [hne])]
  refine ⟨hmain, by rw [hmain, List.head?_cons], by rw [hmain]; simp, rfl⟩

/-- C7 witness: a one-record ResultSet with null keyword and ioc fields. -/
theorem writer_header_nonempty_witness :
    save_results_to_csv [MatchRecord.mk ("u".data) none none ("c".data)]
      = ("url,keyword,ioc,context".data)
        :: [MatchRecord.mk ("u".data) none none ("c".data)].map recordRow
    ∧ (save_results_to_csv
        [MatchRecord.mk ("u".data) none none ("c".data)]).head?
        = some ("url,keyword,ioc,context".data)
    ∧ (save_results_to_csv
        [MatchRecord.mk ("u".data) none none ("c".data)]).length
        = [MatchRecord.mk ("u".data) none none ("c".data)].length + 1
    ∧ csvCell none = ([] : Str) :=
  writer_header_nonempty [MatchRecord.mk ("u".data) none none ("c".data)]
    (by decide)

/-- C8: the ResultSet is the concatenation of each target's records in
caller-supplied target order, each target's records in increasing page order;
within one successfully fetched page, the keyword-derived records (in keyword
list order) precede the IOC-derived records (in IOC list order). -/
theorem result_order (net : Net) (urls keywords iocs : List Str)
    (max_pages : Nat) :
    main_results net urls keywords iocs max_pages
      = urls.flatMap (fun u => (List.range' 1 max_pages).flatMap
          (pageRecords net u keywords iocs))
    ∧ ∀ u t : Str, ∀ p : Nat, net (current_url_for u p) = some t →
        pageRecords net u keywords iocs p
          = keywordRecordsSpec (current_url_for u p) t keywords
            ++ iocRecordsSpec (current_url_for u p) t iocs := by
  constructor
  · rw [main_results, urlLoop_eq]
    simp only [List.nil_append, scrape_url_snd]
  · intro u t p hnet
    exact pageRecords_of_success keywords iocs hnet

/-- C8 witness: a single one-page target whose text matches both the keyword
and the IOC list. -/
theorem result_order_witness :
    main_results (fun _ => some ("t".data)) [("u".data)] [("t".data)]
        [("t".data)] 1
      = [("u".data)].flatMap (fun u => (List.range' 1 1).flatMap
          (pageRecords (fun _ => some ("t".data)) u [("t".data)] [("t".data)]))
    ∧ pageRecords (fun _ => some ("t".data)) ("u".data) [("t".data)]
        [("t".data)] 1
        = keywordRecordsSpec (current_url_for ("u".data) 1) ("t".data)
            [("t".data)]
          ++ iocRecordsSpec (current_url_for ("u".data) 1) ("t".data)
            [("t".data)] := by
  have h := result_order (fun _ => some ("t".data)) [("u".data)] [("t".data)]
    [("t".data)] 1
  exact ⟨h.1, h.2 ("u".data) ("t".data) 1 rfl⟩

end Scraper
